/-
  Verification development for the sfc-cli workspace manager.

  We give a shallow embedding of the content-addressed snapshot store, the
  alias layer, the lifecycle commands and the history ledger, translated from
  the Rust sources (src/core/hash.rs, src/sfc.rs, src/bin/sfc.rs,
  src/core/workspace.rs, src/history.rs, src/container.rs), and prove the
  specified properties about them.

  Modelling conventions:
  - Byte strings are `List Nat` with entries below 256; machine integers are
    `Nat` with explicit `% 2 ^ w` where wrap-around matters.
  - The filesystem state touched by the lifecycle commands is an explicit
    `WState` record; directory iteration order is the list order.
  - SHA-256 (the `sha2` crate used by the sources) is implemented concretely,
    following FIPS 180-4.
-/
import Mathlib

set_option maxRecDepth 100000

namespace Sfc

/-! ### SHA-256 (FIPS 180-4), as used through the sha2 crate -/

/-- 32-bit rotate right of a word already reduced mod `2 ^ 32`. -/
def rotr32 (x n : Nat) : Nat :=
  ((x >>> n) ||| (x <<< (32 - n))) % 4294967296

/-- The SHA-256 round constants, in decimal. -/
def sha256K : List Nat :=
  [1116352408, 1899447441, 3049323471, 3921009573, 961987163,
   1508970993, 2453635748, 2870763221, 3624381080, 310598401,
   607225278, 1426881987, 1925078388, 2162078206, 2614888103,
   3248222580, 3835390401, 4022224774, 264347078, 604807628,
   770255983, 1249150122, 1555081692, 1996064986, 2554220882,
   2821834349, 2952996808, 3210313671, 3336571891, 3584528711,
   113926993, 338241895, 666307205, 773529912, 1294757372,
   1396182291, 1695183700, 1986661051, 2177026350, 2456956037,
   2730485921, 2820302411, 3259730800, 3345764771, 3516065817,
   3600352804, 4094571909, 275423344, 430227734, 506948616,
   659060556, 883997877, 958139571, 1322822218, 1537002063,
   1747873779, 1955562222, 2024104815, 2227730452, 2361852424,
   2428436474, 2756734187, 3204031479, 3329325298]

/-- Working state of the SHA-256 compression function: eight 32-bit words. -/
structure Sha256State where
  a : Nat
  b : Nat
  c : Nat
  d : Nat
  e : Nat
  f : Nat
  g : Nat
  h : Nat
  deriving DecidableEq

/-- The SHA-256 initial hash value, in decimal. -/
def sha256H0 : Sha256State :=
  ⟨1779033703, 3144134277, 1013904242, 2773480762,
   1359893119, 2600822924, 528734635, 1541459225⟩

/-- One round of the SHA-256 compression function on schedule word `w`
with round constant `k`. -/
def sha256Round (s : Sha256State) (k w : Nat) : Sha256State :=
  let bigS1 := (rotr32 s.e 6) ^^^ (rotr32 s.e 11) ^^^ (rotr32 s.e 25)
  let ch := (s.e &&& s.f) ^^^ ((s.e ^^^ 0xffffffff) &&& s.g)
  let temp1 := (s.h + bigS1 + ch + k + w) % 4294967296
  let bigS0 := (rotr32 s.a 2) ^^^ (rotr32 s.a 13) ^^^ (rotr32 s.a 22)
  let maj := (s.a &&& s.b) ^^^ (s.a &&& s.c) ^^^ (s.b &&& s.c)
  let temp2 := (bigS0 + maj) % 4294967296
  ⟨(temp1 + temp2) % 4294967296, s.a, s.b, s.c,
   (s.d + temp1) % 4294967296, s.e, s.f, s.g⟩

/-- Extend a 16-word message block by `n` further schedule words. -/
def sha256Extend (ws : List Nat) : Nat → List Nat
  | 0 => ws
  | n + 1 =>
    let len := ws.length
    let w15 := ws.getD (len - 15) 0
    let w2 := ws.getD (len - 2) 0
    let s0 := (rotr32 w15 7) ^^^ (rotr32 w15 18) ^^^ (w15 >>> 3)
    let s1 := (rotr32 w2 17) ^^^ (rotr32 w2 19) ^^^ (w2 >>> 10)
    let next := (ws.getD (len - 16) 0 + s0 + ws.getD (len - 7) 0 + s1) % 4294967296
    sha256Extend (ws ++ [next]) n

/-- Interpret four consecutive bytes as a big-endian 32-bit word. -/
def bytesToWordsBE : List Nat → List Nat
  | b0 :: b1 :: b2 :: b3 :: rest =>
    (b0 <<< 24 ||| b1 <<< 16 ||| b2 <<< 8 ||| b3) :: bytesToWordsBE rest
  | _ => []

/-- Big-endian bytes of a 32-bit word. -/
def wordToBytesBE (w : Nat) : List Nat :=
  [(w >>> 24) &&& 255, (w >>> 16) &&& 255, (w >>> 8) &&& 255, w &&& 255]

/-- Big-endian bytes of a 64-bit length field. -/
def len64ToBytesBE (n : Nat) : List Nat :=
  [(n >>> 56) &&& 255, (n >>> 48) &&& 255, (n >>> 40) &&& 255, (n >>> 32) &&& 255,
   (n >>> 24) &&& 255, (n >>> 16) &&& 255, (n >>> 8) &&& 255, n &&& 255]

/-- SHA-256 padding: append `0x80`, zeros to 56 mod 64, then the 64-bit
big-endian bit length. -/
def sha256Pad (msg : List Nat) : List Nat :=
  let len := msg.length
  let zeros := (119 - len % 64) % 64
  msg ++ [0x80] ++ List.replicate zeros 0 ++ len64ToBytesBE (8 * len)

/-- Split a byte list into 64-byte blocks (structural recursion on a fuel
bounded by the list length, so that the definition reduces in the kernel). -/
def toBlocksAux : Nat → List Nat → List (List Nat)
  | 0, _ => []
  | _, [] => []
  | fuel + 1, l => l.take 64 :: toBlocksAux fuel (l.drop 64)

/-- Split a byte list into 64-byte blocks. -/
def toBlocks (l : List Nat) : List (List Nat) :=
  toBlocksAux l.length l

/-- Compress one 64-byte block into the running state. -/
def sha256Compress (s : Sha256State) (block : List Nat) : Sha256State :=
  let ws := sha256Extend (bytesToWordsBE block) 48
  let t := (ws.zip sha256K).foldl (fun st p => sha256Round st p.2 p.1) s
  ⟨(s.a + t.a) % 4294967296, (s.b + t.b) % 4294967296,
   (s.c + t.c) % 4294967296, (s.d + t.d) % 4294967296,
   (s.e + t.e) % 4294967296, (s.f + t.f) % 4294967296,
   (s.g + t.g) % 4294967296, (s.h + t.h) % 4294967296⟩

/-- SHA-256 digest of a byte list, as 32 bytes. -/
def sha256 (msg : List Nat) : List Nat :=
  let s := (toBlocks (sha256Pad msg)).foldl sha256Compress sha256H0
  wordToBytesBE s.a ++ wordToBytesBE s.b ++ wordToBytesBE s.c ++ wordToBytesBE s.d ++
  wordToBytesBE s.e ++ wordToBytesBE s.f ++ wordToBytesBE s.g ++ wordToBytesBE s.h

/-- The sixteen lowercase hexadecimal digits. -/
def hexDigits : List Char :=
  "0123456789abcdef".data

/-- Two lowercase hex characters of a byte. -/
def byteToHex (b : Nat) : List Char :=
  [hexDigits.getD (b / 16) '0', hexDigits.getD (b % 16) '0']

/-- Lowercase hex rendering of a SHA-256 digest (Rust `format!` with `x`). -/
def sha256hex (msg : List Nat) : String :=
  String.mk ((sha256 msg).foldr (fun b acc => byteToHex b ++ acc) [])

/-- UTF-8 bytes of a character. -/
def charUtf8 (c : Char) : List Nat :=
  let n := c.toNat
  if n < 0x80 then [n]
  else if n < 0x800 then [0xc0 ||| (n >>> 6), 0x80 ||| (n &&& 0x3f)]
  else if n < 0x10000 then
    [0xe0 ||| (n >>> 12), 0x80 ||| ((n >>> 6) &&& 0x3f), 0x80 ||| (n &&& 0x3f)]
  else
    [0xf0 ||| (n >>> 18), 0x80 ||| ((n >>> 12) &&& 0x3f),
     0x80 ||| ((n >>> 6) &&& 0x3f), 0x80 ||| (n &&& 0x3f)]

/-- UTF-8 bytes of a string (Rust `str::as_bytes`). -/
def strUtf8 (s : String) : List Nat :=
  s.data.foldr (fun c acc => charUtf8 c ++ acc) []

/-! ### HashEngine (src/core/hash.rs)

A snapshot directory, as far as `compute_snapshot_hash` observes it: its
basename (raw bytes of the directory entry name), an association list from
file name to file content bytes (iteration never matters: files are probed
by name against fixed whitelists), and the modification time of the
directory itself, truncated to seconds (a `u64`, hence a `Nat` below
`2 ^ 64`). -/
structure SnapshotDir where
  basename : List Nat
  files : List (String × List Nat)
  mtimeSecs : Nat
  deriving DecidableEq

/-- The fixed ordered whitelist of lock filenames hashed by
`compute_snapshot_hash` in src/core/hash.rs. -/
def hashLockfiles : List String :=
  ["requirements.txt", "package-lock.json", "Cargo.lock", "rockspec.lock",
   "Gemfile.lock", "composer.lock", "pubspec.lock", "mix.lock"]

/-- The fixed ordered whitelist of metadata filenames hashed by
`compute_snapshot_hash` in src/core/hash.rs. -/
def hashMetadataFiles : List String :=
  ["sfc-metadata.toml", "container.toml", "toolchain.toml"]

/-- Content of a file of the snapshot directory, when it exists
(`path.exists()` then `fs::read`). -/
def readFile (files : List (String × List Nat)) (name : String) : Option (List Nat) :=
  (files.find? (fun p => p.1 = name)).map (fun p => p.2)

/-- The bytes contributed to the hasher for one whitelisted filename:
the filename, then the file bytes, or nothing if the file is absent. -/
def fileChunk (files : List (String × List Nat)) (name : String) : List Nat :=
  match readFile files name with
  | some bytes => strUtf8 name ++ bytes
  | none => []

/-- Little-endian bytes of a `u64` (`u64::to_le_bytes`), written with
division and remainder. -/
def le64Bytes (n : Nat) : List Nat :=
  [n % 256, n / 2 ^ 8 % 256, n / 2 ^ 16 % 256, n / 2 ^ 24 % 256,
   n / 2 ^ 32 % 256, n / 2 ^ 40 % 256, n / 2 ^ 48 % 256, n / 2 ^ 56 % 256]

/-- The byte stream fed to SHA-256 by `compute_snapshot_hash`
(src/core/hash.rs): directory basename, then filename-and-bytes for each
present lockfile of the whitelist in order, then the same for the metadata
whitelist, then the directory modification time in seconds, little-endian. -/
def snapshotHashInput (d : SnapshotDir) : List Nat :=
  d.basename ++
  (hashLockfiles.foldr (fun name acc => fileChunk d.files name ++ acc) []) ++
  (hashMetadataFiles.foldr (fun name acc => fileChunk d.files name ++ acc) []) ++
  le64Bytes d.mtimeSecs

/-- `compute_snapshot_hash` of src/core/hash.rs: the lowercase hex SHA-256
digest of the stream above. -/
def compute_snapshot_hash (d : SnapshotDir) : String :=
  sha256hex (snapshotHashInput d)

/-- `short_hash` of src/core/hash.rs: first 12 characters. -/
def short_hash (fullHash : String) : String :=
  String.mk (fullHash.data.take 12)

/-- `validate_hash_format` of src/core/hash.rs: 64 hex characters.
(Rust `len` is the byte length; these strings are ASCII.) -/
def validate_hash_format (hash : String) : Bool :=
  hash.length = 64 && hash.data.all (fun c => c.isDigit || ('a' ≤ c && c ≤ 'f') || ('A' ≤ c && c ≤ 'F'))

/-- Rust `str::starts_with`: byte-prefix, equivalently character-prefix,
for valid UTF-8. -/
def strStartsWith (s pfx : String) : Bool :=
  pfx.data.isPrefixOf s.data

/-- `find_hash_by_prefix` of src/core/hash.rs: `none` for prefixes shorter
than 6, otherwise the unique candidate starting with the prefix, `none`
when absent or ambiguous. -/
def find_hash_by_prefix (candidateHashes : List String) (pfx : String) : Option String :=
  if pfx.length < 6 then none
  else
    match candidateHashes.filter (fun hash => strStartsWith hash pfx) with
    | [h] => some h
    | _ => none

/-- `hashes_match` of src/core/hash.rs: equal-length strings compare by
equality; otherwise the shorter (at least 6 characters) must be a prefix of
the longer. -/
def hashes_match (hash1 hash2 : String) : Bool :=
  if hash1.length = hash2.length then hash1 == hash2
  else
    let sl := if hash1.length < hash2.length then (hash1, hash2) else (hash2, hash1)
    if 6 ≤ sl.1.length then strStartsWith sl.2 sl.1 else false

/-! ### Container configuration and its hash (src/container.rs)

`ContainerConfig::compute_hash` serializes the whole configuration with
serde_json and hashes the JSON text.  The `environment` field is a Rust
`HashMap`, serialized in its iteration order; the model carries that order
explicitly as an association list.  `created_at` is carried as the string
chrono/serde renders it to (an RFC 3339 timestamp). -/

inductive PackageSource where
  | Nixpkgs : PackageSource
  | GitHub : String → String → PackageSource
  | Url : String → PackageSource
  deriving DecidableEq

structure PackageSpec where
  name : String
  version : Option String
  channel : Option String
  source : PackageSource
  deriving DecidableEq

structure ContainerConfig where
  name : String
  created_at : String
  packages : List PackageSpec
  environment : List (String × String)
  shell : String
  deriving DecidableEq

/-- serde_json escaping of one character inside a JSON string. -/
def jsonEscapeChar (c : Char) : List Char :=
  if c = '"' then ['\\', '"']
  else if c = '\\' then ['\\', '\\']
  else if c = Char.ofNat 8 then ['\\', 'b']
  else if c = Char.ofNat 9 then ['\\', 't']
  else if c = Char.ofNat 10 then ['\\', 'n']
  else if c = Char.ofNat 12 then ['\\', 'f']
  else if c = Char.ofNat 13 then ['\\', 'r']
  else if c.toNat < 32 then
    let hi := hexDigits.getD (c.toNat / 16) '0'
    let lo := hexDigits.getD (c.toNat % 16) '0'
    ['\\', 'u', '0', '0', hi, lo]
  else [c]

/-- A JSON string literal. -/
def jsonStr (s : String) : String :=
  "\"" ++ String.mk (s.data.foldr (fun c acc => jsonEscapeChar c ++ acc) []) ++ "\""

/-- serde_json for `Option<String>`. -/
def jsonOptStr : Option String → String
  | none => "null"
  | some s => jsonStr s

/-- serde_json for `PackageSource` (externally tagged enum encoding). -/
def jsonPackageSource : PackageSource → String
  | .Nixpkgs => "\"Nixpkgs\""
  | .GitHub repo rev =>
    "\x7b\"GitHub\":\x7b\"repo\":" ++ jsonStr repo ++ ",\"rev\":" ++ jsonStr rev ++ "\x7d\x7d"
  | .Url u => "\x7b\"Url\":" ++ jsonStr u ++ "\x7d"

/-- serde_json for `PackageSpec`, fields in declaration order. -/
def jsonPackageSpec (p : PackageSpec) : String :=
  "\x7b\"name\":" ++ jsonStr p.name ++ ",\"version\":" ++ jsonOptStr p.version ++
  ",\"channel\":" ++ jsonOptStr p.channel ++ ",\"source\":" ++ jsonPackageSource p.source ++ "\x7d"

/-- Comma-separated concatenation. -/
def jsonJoin (parts : List String) : String :=
  String.intercalate "," parts

/-- serde_json for the whole `ContainerConfig`, fields in declaration
order; the environment map is written in its iteration order. -/
def jsonContainerConfig (c : ContainerConfig) : String :=
  "\x7b\"name\":" ++ jsonStr c.name ++
  ",\"created_at\":" ++ jsonStr c.created_at ++
  ",\"packages\":[" ++ jsonJoin (c.packages.map jsonPackageSpec) ++ "]" ++
  ",\"environment\":\x7b" ++
    jsonJoin (c.environment.map (fun p => jsonStr p.1 ++ ":" ++ jsonStr p.2)) ++ "\x7d" ++
  ",\"shell\":" ++ jsonStr c.shell ++ "\x7d"

/-- `ContainerConfig::compute_hash` (src/container.rs): the first 16 hex
characters of the SHA-256 of the serde_json serialization. -/
def ContainerConfig.compute_hash (c : ContainerConfig) : String :=
  String.mk ((sha256hex (strUtf8 (jsonContainerConfig c))).data.take 16)

/-! ### History ledger (src/history.rs) -/

inductive Operation where
  | Create : Operation
  | AddPackage : String → Option String → Operation
  | RemovePackage : String → Operation
  | ModifyPackage : String → Option String → Option String → Operation
  | Promote : Operation
  | Rollback : String → Operation
  deriving DecidableEq

structure HistoryEntry where
  hash : String
  container_name : String
  timestamp : String
  message : String
  operation : Operation
  parent_hash : Option String
  deriving DecidableEq

/-- `History::add_entry` (src/history.rs): compute the hash of the
container configuration, take as parent the hash of the most recent
existing entry with the same container name, append, and return the new
hash.  The in-memory entry list is the whole persistent log; `save`
rewrites it, changing no entry. -/
def add_entry (entries : List HistoryEntry) (container : ContainerConfig)
    (operation : Operation) (message : String) (timestamp : String) :
    List HistoryEntry × String :=
  let hash := container.compute_hash
  let parent_hash := (entries.reverse.find? (fun e => e.container_name = container.name)).map
    (fun e => e.hash)
  let entry : HistoryEntry :=
    ⟨hash, container.name, timestamp, message, operation, parent_hash⟩
  (entries ++ [entry], hash)

/-! ### Workspace filesystem state (src/sfc.rs, src/bin/sfc.rs, src/core/workspace.rs)

The lifecycle commands and the garbage collector observe: the symlinks
under `links/` (name, raw target, and the mtime of the link file itself),
the directories under `store/` (basename and mtime), existing directories
outside `store/` that a symlink may point at, the container directories,
the per-container configs, and the contents of `.sfc/current` (`none` when
the file is absent).  List order is directory-iteration order.

A raw symlink target is either `../store/<name>` (a direct child of the
store, the shape every lifecycle operation creates) or some other path
outside the store; an outside path is identified with its basename. -/

inductive Target where
  | storeChild : String → Target
  | outside : String → Target
  deriving DecidableEq

structure LinkEntry where
  name : String
  target : Target
  mtime : Nat
  deriving DecidableEq

structure StoreDir where
  name : String
  mtime : Nat
  deriving DecidableEq

structure WState where
  links : List LinkEntry
  store : List StoreDir
  outsideDirs : List (String × Nat)
  containers : List String
  configs : List String
  current : Option String
  deriving DecidableEq

/-- Basenames of the directories under `store/`. -/
def storeNames (s : WState) : List String :=
  s.store.map (fun d => d.name)

/-- Whether the path a raw symlink target denotes exists
(`links/<name>`'s parent joined with the target, then `exists()`). -/
def targetExists (s : WState) : Target → Bool
  | .storeChild n => (storeNames s).contains n
  | .outside p => s.outsideDirs.any (fun q => q.1 = p)

/-- `Path::file_name` of a raw symlink target. -/
def targetBasename : Target → String
  | .storeChild n => n
  | .outside p => p

/-- `fs::metadata(path).modified()` on a symlink path: follows the link,
so it is the modification time of the target when the target exists. -/
def resolvedMtime (s : WState) : Target → Option Nat
  | .storeChild n => (s.store.find? (fun d => d.name = n)).map (fun d => d.mtime)
  | .outside p => (s.outsideDirs.find? (fun q => q.1 = p)).map (fun q => q.2)

/-- First link of the given name under `links/`. -/
def lookupLink (s : WState) (name : String) : Option LinkEntry :=
  s.links.find? (fun l => l.name = name)

/-- Names of the links under `links/`. -/
def linkNames (s : WState) : List String :=
  s.links.map (fun l => l.name)

/-- Rust `str::trim`: drop whitespace from both ends (written structurally
so that it evaluates in the kernel). -/
def rustTrim (s : String) : String :=
  String.mk (((s.data.dropWhile Char.isWhitespace).reverse.dropWhile
    Char.isWhitespace).reverse)

/-- `current_container` (src/sfc.rs): contents of `.sfc/current`, trimmed,
or `none` when the file is absent. -/
def current_container (s : WState) : Option String :=
  s.current.map (fun c => rustTrim c)

/-- `list_containers` (src/sfc.rs): names of the directories under
`containers/`, sorted. -/
def list_containers (s : WState) : List String :=
  s.containers.mergeSort (fun a b => a ≤ b)

/-- `create_or_update_symlink` semantics for `links/<alias>` (the direct,
stow-less path of `link_alias_to_store`): remove any existing entry of
that name, then create the symlink anew; the fresh link file carries the
current time `now`. -/
def setLink (s : WState) (aliasName : String) (t : Target) (now : Nat) : WState :=
  { s with links := s.links.filter (fun l => l.name ≠ aliasName) ++ [⟨aliasName, t, now⟩] }

/-- `cmd_clean` (src/bin/sfc.rs): first sweep removes every symlink under
`links/` whose resolved target does not exist; second sweep collects the
basenames of the remaining raw targets and removes every entry under
`store/` whose name is not among them. -/
def cmd_clean (s : WState) : WState :=
  let keptLinks := s.links.filter (fun l => targetExists s l.target)
  let referenced := keptLinks.map (fun l => targetBasename l.target)
  { s with
    links := keptLinks
    store := s.store.filter (fun d => referenced.contains d.name) }

/-- `WorkspaceManager::cleanup` (src/core/workspace.rs): the two sweeps in
the opposite order — orphaned snapshots first (with the reachable set read
from all links, dangling ones included), dangling links second. -/
def workspace_cleanup (s : WState) : WState :=
  let referenced := s.links.map (fun l => targetBasename l.target)
  let s1 := { s with store := s.store.filter (fun d => referenced.contains d.name) }
  { s1 with links := s1.links.filter (fun l => targetExists s1 l.target) }

/-- `create_snapshot_dir` (src/sfc.rs and src/core/snapshot.rs): join
`store/` with `<rand>-<kind>` and `fs::create_dir_all` it — which succeeds
whether or not the directory already exists — and return the path.  The
random 12-character name is an input here. -/
def create_snapshot_dir (s : WState) (rand kind : String) (now : Nat) :
    Except String (WState × String) :=
  let dirName := rand ++ "-" ++ kind
  if (storeNames s).contains dirName then
    .ok (s, dirName)
  else
    .ok ({ s with store := s.store ++ [⟨dirName, now⟩] }, dirName)

/-- `find_latest_temp_alias` (src/sfc.rs): among the symlinks under
`links/` whose name starts with `<name>-temp-`, sort (stably) by
`metadata().modified()` descending — `fs::metadata` follows the symlink,
so the key is the modification time of the link's target, `none` when the
target is missing — and take the first. -/
def tempAliasesOf (s : WState) (name : String) : List LinkEntry :=
  s.links.filter (fun l => strStartsWith l.name (name ++ "-temp-"))

/-- Ordering on `Option` modification times as Rust orders
`Option<SystemTime>`: `None` is least. -/
def optTimeLe : Option Nat → Option Nat → Bool
  | none, _ => true
  | some _, none => false
  | some x, some y => x ≤ y

/-- The mergeSort comparison encoding the Rust comparator
`bm.cmp(&am)` (descending by modification time): `a` may stay before `b`
iff `b`'s key is at most `a`'s. -/
def tempAliasLe (s : WState) (a b : LinkEntry) : Bool :=
  optTimeLe (resolvedMtime s b.target) (resolvedMtime s a.target)

def find_latest_temp_alias (s : WState) (name : String) : Option String :=
  (((tempAliasesOf s name).mergeSort (tempAliasLe s)).head?).map (fun l => l.name)

/-- The shared resolution of the temp alias a command acts on: the
explicit argument when given, otherwise the most recent temp alias. -/
def resolveChosenTemp (s : WState) (name : String) : Option String → Option String
  | some a => some a
  | none => find_latest_temp_alias s name

/-- `try_remove_store_if_orphan` (src/sfc.rs): canonicalize the removed
alias's target; if it is not under `store/`, do nothing; otherwise delete
the store directory unless some remaining symlink under `links/` resolves
to a path with the same basename. -/
def try_remove_store_if_orphan (s : WState) (rel : Target) : WState :=
  match rel with
  | .outside _ => s
  | .storeChild b =>
    if s.links.any (fun l => targetExists s l.target && targetBasename l.target = b) then s
    else { s with store := s.store.filter (fun d => d.name ≠ b) }

/-- `cmd_promote` (src/bin/sfc.rs), for an already-resolved container
name: resolve the temp alias (explicit or most recent; error when none),
fail unless `links/<chosen>` exists — `Path::exists` follows the symlink,
so a dangling temp alias is also rejected — read its target, and repoint
`<name>-stable` to that target.  The change-summary computation reads
files but alters no state. -/
def cmd_promote (s : WState) (name : String) (tempAlias : Option String) (now : Nat) :
    Except String WState :=
  match resolveChosenTemp s name tempAlias with
  | none => .error "no temp snapshots"
  | some chosen =>
    match lookupLink s chosen with
    | none => .error "temp alias not found"
    | some l =>
      if targetExists s l.target then
        .ok (setLink s (name ++ "-stable") l.target now)
      else
        .error "temp alias not found"

/-- `cmd_discard` (src/bin/sfc.rs), for an already-resolved container
name: resolve the temp alias (error when none), and if `links/<chosen>`
exists (following the symlink; otherwise nothing is discarded), read its
target, unlink the alias, and run `try_remove_store_if_orphan` on the
target. -/
def cmd_discard (s : WState) (name : String) (tempAlias : Option String) :
    Except String WState :=
  match resolveChosenTemp s name tempAlias with
  | none => .error "no temp snapshots"
  | some chosen =>
    match lookupLink s chosen with
    | none => .ok s
    | some l =>
      if targetExists s l.target then
        let s1 := { s with links := s.links.filter (fun x => x.name ≠ chosen) }
        .ok (try_remove_store_if_orphan s1 l.target)
      else
        .ok s

/-- One iteration of the `cmd_delete` loop (src/bin/sfc.rs) for one name:
skip names that are not containers; refuse the current container unless
forced; without `--force`, also skip unless the interactive confirmation
(an input here) is affirmative.  Otherwise remove the container directory,
its config, its stable link — guarded by `Path::exists`, which follows the
symlink, so a dangling stable link is left behind — and all its temp
links; on success (the model has no I/O failures) write the empty string
to `.sfc/current` when the deleted name was the current container.
`existing` and `current` are the values computed once before the loop. -/
def deleteOne (existing : List String) (current : Option String) (force confirm : Bool)
    (s : WState) (name : String) : WState :=
  if ¬ existing.contains name then s
  else if current = some name ∧ ¬ force then s
  else if ¬ force ∧ ¬ confirm then s
  else
    let s2 : WState :=
      { s with
        containers := s.containers.filter (fun c => c ≠ name)
        configs := s.configs.filter (fun c => c ≠ name)
        links := s.links.filter (fun l =>
          ¬ (l.name = name ++ "-stable" ∧ targetExists s l.target) ∧
          ¬ strStartsWith l.name (name ++ "-temp-")) }
    if current = some name then { s2 with current := some "" } else s2

/-- `cmd_delete` (src/bin/sfc.rs): loop `deleteOne` over the names with
the pre-computed container list and current pointer, then always run
`cmd_clean`. -/
def cmd_delete (s : WState) (names : List String) (force confirm : Bool) : WState :=
  let existing := list_containers s
  let current := current_container s
  cmd_clean (names.foldl (deleteOne existing current force confirm) s)

/-! ### The claims' own predicates -/

/-- The referential-integrity property exactly as claimed: every alias
under `links/` resolves to an existing snapshot directory under `store/`,
and every directory under `store/` has its basename referenced by at least
one alias's symlink target. -/
def refIntegrity (s : WState) : Bool :=
  s.links.all (fun l =>
    match l.target with
    | .storeChild n => (storeNames s).contains n
    | .outside _ => false) &&
  s.store.all (fun d => s.links.any (fun l => targetBasename l.target = d.name))

/-! ### Concrete states used to witness the theorems -/

/-- A snapshot directory with one whitelisted lockfile. -/
def exSnap : SnapshotDir :=
  ⟨strUtf8 "aaaaaaaaaaaa-new",
   [("requirements.txt", strUtf8 "# pinned python deps\n")],
   1700000000⟩

/-- A workspace whose only alias points outside the store, at an existing
directory. -/
def exOutsideAlias : WState :=
  ⟨[⟨"x", .outside "etc", 0⟩], [], [("etc", 0)], [], [], none⟩

/-- A workspace with one live stable alias and one orphaned store entry. -/
def exStaleStore : WState :=
  ⟨[⟨"demo-stable", .storeChild "A", 5⟩], [⟨"A", 1⟩, ⟨"B", 2⟩], [], [], [], none⟩

/-- A container `demo` with a stable alias on snapshot `A` and one temp
alias on snapshot `B`. -/
def exPromote : WState :=
  ⟨[⟨"demo-stable", .storeChild "A", 5⟩, ⟨"demo-temp-20240101", .storeChild "B", 6⟩],
   [⟨"A", 1⟩, ⟨"B", 2⟩], [], ["demo"], ["demo"], some "demo"⟩

/-- `exPromote` after promoting the temp alias at time 9. -/
def exPromoted : WState :=
  ⟨[⟨"demo-temp-20240101", .storeChild "B", 6⟩, ⟨"demo-stable", .storeChild "B", 9⟩],
   [⟨"A", 1⟩, ⟨"B", 2⟩], [], ["demo"], ["demo"], some "demo"⟩

/-- `exPromote` after discarding the temp alias: the alias is gone and the
now-unreferenced snapshot `B` was deleted. -/
def exDiscarded : WState :=
  ⟨[⟨"demo-stable", .storeChild "A", 5⟩],
   [⟨"A", 1⟩], [], ["demo"], ["demo"], some "demo"⟩

/-- A workspace whose store already holds the directory a colliding
`create_snapshot_dir` call would allocate. -/
def exCollision : WState :=
  ⟨[], [⟨"abcDEF123456-new", 3⟩], [], [], [], none⟩

/-- A workspace where `demo` is the current container. -/
def exCurrent : WState :=
  ⟨[⟨"demo-stable", .storeChild "A", 0⟩], [⟨"A", 0⟩], [], ["demo"], ["demo"], some "demo"⟩

/-- Two temp aliases whose link files and targets have opposite
modification-time orders: the link file of `n-temp-b` is newer, the target
of `n-temp-a` is newer. -/
def exTemps : WState :=
  ⟨[⟨"n-temp-a", .storeChild "A", 1⟩, ⟨"n-temp-b", .storeChild "B", 2⟩],
   [⟨"A", 10⟩, ⟨"B", 5⟩], [], [], [], none⟩

/-- A container configuration whose environment map iterates as A then B. -/
def cfgEnvAB : ContainerConfig :=
  ⟨"demo", "2024-01-01T00:00:00Z", [], [("A", "1"), ("B", "2")], "/bin/bash"⟩

/-- The same configuration with the environment map iterating as B then A. -/
def cfgEnvBA : ContainerConfig :=
  ⟨"demo", "2024-01-01T00:00:00Z", [], [("B", "2"), ("A", "1")], "/bin/bash"⟩

/-! ## Theorems -/

/-- FIPS 180-4 test vector, validating the SHA-256 implementation. -/
theorem sha256_abc_vector :
    sha256hex (strUtf8 "abc") =
      "ba7816bf8f01cfea414140de5dae2223b00361a396177a9cb410ff61f20015ad" := by
  decide

theorem sha256_length (msg : List Nat) : (sha256 msg).length = 32 := by
  simp [sha256, wordToBytesBE]

theorem byteToHex_length (b : Nat) : (byteToHex b).length = 2 := by
  simp [byteToHex]

theorem hexFoldr_length (l : List Nat) :
    (l.foldr (fun b acc => byteToHex b ++ acc) []).length = 2 * l.length := by
  induction l with
  | nil => simp
  | cons b t ih =>
    simp only [List.foldr_cons, List.length_append, byteToHex_length, ih, List.length_cons]
    omega

theorem sha256hex_length (msg : List Nat) : (sha256hex msg).length = 64 := by
  have h1 := hexFoldr_length (sha256 msg)
  rw [sha256_length] at h1
  simp [sha256hex, String.length, h1]

theorem le64Bytes_inj {m n : Nat} (hm : m < 2 ^ 64) (hn : n < 2 ^ 64)
    (h : le64Bytes m = le64Bytes n) : m = n := by
  simp only [le64Bytes, List.cons.injEq, and_true] at h
  omega

/-- C2. Snapshot hash algorithm (src/core/hash.rs `compute_snapshot_hash`):
the hash is the 64-character hex SHA-256 digest of the stream built from
the directory basename, then filename-and-bytes for each present file of
the ordered lockfile whitelist, then the same for the metadata whitelist,
then the modification time in seconds — so renaming the directory, or
changing its modification time, changes the hashed stream even when every
file is unchanged. -/
theorem compute_snapshot_hash_spec (d : SnapshotDir) (b2 : List Nat) (t2 : Nat) :
    (compute_snapshot_hash d).length = 64 ∧
    (b2 ≠ d.basename →
      snapshotHashInput { d with basename := b2 } ≠ snapshotHashInput d) ∧
    (t2 ≠ d.mtimeSecs → t2 < 2 ^ 64 → d.mtimeSecs < 2 ^ 64 →
      snapshotHashInput { d with mtimeSecs := t2 } ≠ snapshotHashInput d) := by
  refine ⟨sha256hex_length _, ?_, ?_⟩
  · intro hne heq
    simp only [snapshotHashInput] at heq
    have hlen := congrArg List.length heq
    simp only [List.length_append] at hlen
    have hlen2 : b2.length = d.basename.length := by omega
    rw [List.append_assoc, List.append_assoc, List.append_assoc, List.append_assoc] at heq
    exact hne (List.append_inj_left heq hlen2)
  · intro hne hlt1 hlt2 heq
    simp only [snapshotHashInput] at heq
    rw [List.append_assoc, List.append_assoc, List.append_assoc, List.append_assoc] at heq
    have h1 := List.append_inj_right heq rfl
    have h2 := List.append_inj_right h1 rfl
    have h3 := List.append_inj_right h2 rfl
    exact hne (le64Bytes_inj hlt1 hlt2 h3)

/-- Witness for `compute_snapshot_hash_spec` at a concrete snapshot
directory, together with a digest-level check that the rename and the
mtime change indeed change the final hex digest there. -/
theorem compute_snapshot_hash_spec_witness :
    ((compute_snapshot_hash exSnap).length = 64 ∧
      snapshotHashInput { exSnap with basename := strUtf8 "bbbbbbbbbbbb-new" } ≠
        snapshotHashInput exSnap ∧
      snapshotHashInput { exSnap with mtimeSecs := 1700000001 } ≠
        snapshotHashInput exSnap) ∧
    compute_snapshot_hash { exSnap with basename := strUtf8 "bbbbbbbbbbbb-new" } ≠
      compute_snapshot_hash exSnap ∧
    compute_snapshot_hash { exSnap with mtimeSecs := 1700000001 } ≠
      compute_snapshot_hash exSnap := by
  have h := compute_snapshot_hash_spec exSnap (strUtf8 "bbbbbbbbbbbb-new") 1700000001
  exact ⟨⟨h.1, h.2.1 (by decide), h.2.2 (by decide) (by decide) (by decide)⟩,
    by decide, by decide⟩

/-- C6. Prefix lookup (src/core/hash.rs `find_hash_by_prefix`): a candidate
is returned iff the prefix has length at least 6 and it is the unique
candidate starting with that prefix; in particular prefixes shorter than 6
yield `none` even when a unique candidate matches, and zero or several
matches yield `none`. -/
theorem find_hash_by_prefix_unique (candidates : List String) (pfx h : String) :
    find_hash_by_prefix candidates pfx = some h ↔
      6 ≤ pfx.length ∧ candidates.filter (fun c => strStartsWith c pfx) = [h] := by
  unfold find_hash_by_prefix
  split
  · rename_i hlt
    simp only [false_iff, reduceCtorEq]
    intro hcon
    omega
  · rename_i hge
    have h6 : 6 ≤ pfx.length := by omega
    split
    · rename_i x heq
      rw [heq]
      simp [h6]
    · rename_i hne
      simp only [false_iff, reduceCtorEq, not_and]
      intro _ hcon
      exact hne h hcon

/-- Witness for `find_hash_by_prefix_unique` at concrete inputs. -/
theorem find_hash_by_prefix_unique_witness :
    find_hash_by_prefix ["aaaaaa111", "aaaaaa222", "bbbbbb333"] "bbbbbb" =
      some "bbbbbb333" :=
  (find_hash_by_prefix_unique ["aaaaaa111", "aaaaaa222", "bbbbbb333"] "bbbbbb"
    "bbbbbb333").mpr (by decide)

/-- On a collision `create_snapshot_dir` returns `Ok` with the store
unchanged. -/
theorem create_snapshot_dir_collision_ok
    (s : WState) (rand kind : String) (now : Nat)
    (hcollide : (storeNames s).contains (rand ++ "-" ++ kind) = true) :
    create_snapshot_dir s rand kind now = .ok (s, rand ++ "-" ++ kind) := by
  unfold create_snapshot_dir
  rw [if_pos hcollide]

/-- C5. `create_snapshot_dir` (src/sfc.rs, src/core/snapshot.rs) uses
`fs::create_dir_all`, which succeeds on an already-existing directory: the
function never returns an error, and in particular on a collision of the
random name — as in `exCollision`, whose store already holds
`abcDEF123456-new` — it returns `Ok` for the pre-existing directory with
the store unchanged, contradicting the specified collision behavior. -/
theorem create_snapshot_dir_never_errors :
    (∀ (s : WState) (rand kind : String) (now : Nat),
      ∃ out, create_snapshot_dir s rand kind now = .ok out) ∧
    "abcDEF123456-new" ∈ storeNames exCollision ∧
    create_snapshot_dir exCollision "abcDEF123456" "new" 7 =
      .ok (exCollision, "abcDEF123456-new") := by
  refine ⟨?_, by decide, create_snapshot_dir_collision_ok exCollision "abcDEF123456" "new" 7 (by decide)⟩
  intro s rand kind now
  unfold create_snapshot_dir
  by_cases hc : (storeNames s).contains (rand ++ "-" ++ kind) = true
  · exact ⟨(s, rand ++ "-" ++ kind), by rw [if_pos hc]⟩
  · exact ⟨({ s with store := s.store ++ [⟨rand ++ "-" ++ kind, now⟩] }, rand ++ "-" ++ kind),
      by rw [if_neg hc]⟩

/-- C10. `hashes_match` (src/core/hash.rs) is symmetric: equal-length
inputs compare by equality, and unequal-length inputs compare the shorter
(at least 6 characters) as a prefix of the longer, both independent of the
argument order. -/
theorem hashes_match_symm (a b : String) : hashes_match a b = hashes_match b a := by
  simp only [hashes_match]
  rcases Nat.lt_trichotomy a.length b.length with hlt | heq | hgt
  · have h1 : ¬(a.length = b.length) := by omega
    have h2 : ¬(b.length = a.length) := by omega
    have h3 : ¬(b.length < a.length) := by omega
    simp only [if_neg h1, if_neg h2, if_pos hlt, if_neg h3]
  · simp only [if_pos heq, if_pos heq.symm]
    exact Bool.beq_comm
  · have h1 : ¬(a.length = b.length) := by omega
    have h2 : ¬(b.length = a.length) := by omega
    have h3 : ¬(a.length < b.length) := by omega
    simp only [if_neg h1, if_neg h2, if_neg h3, if_pos hgt]

theorem find?_eq_head?_filter (p : α → Bool) (l : List α) :
    l.find? p = (l.filter p).head? := by
  induction l with
  | nil => rfl
  | cons x t ih =>
    by_cases hx : p x
    · rw [List.find?_cons_of_pos _ hx, List.filter_cons_of_pos hx, List.head?_cons]
    · rw [List.find?_cons_of_neg _ hx, List.filter_cons_of_neg hx, ih]

theorem reverse_find?_eq_filter_getLast? (p : α → Bool) (l : List α) :
    l.reverse.find? p = (l.filter p).getLast? := by
  rw [find?_eq_head?_filter, List.filter_reverse, List.head?_reverse]

/-- C8 (amended). `History::add_entry` (src/history.rs): the returned hash
is `ContainerConfig::compute_hash` of the configuration as stored — the
first 16 hex characters of the SHA-256 of its serde_json serialization,
with packages in stored order and the environment map in its iteration
order, not a canonicalized view — the appended entry carries as
`parent_hash` the hash of the most recent existing entry with the same
container name (`none` for a container with no prior entry), and the entry
is appended at the end of the log. -/
theorem add_entry_spec (entries : List HistoryEntry) (c : ContainerConfig)
    (op : Operation) (msg ts : String) :
    (add_entry entries c op msg ts).2 = c.compute_hash ∧
    (add_entry entries c op msg ts).1 =
      entries ++ [⟨c.compute_hash, c.name, ts, msg, op,
        ((entries.filter (fun e => e.container_name = c.name)).getLast?).map
          (fun e => e.hash)⟩] := by
  refine ⟨rfl, ?_⟩
  simp only [add_entry, reverse_find?_eq_filter_getLast?]

/-- Counterexample to C8 as claimed: two configurations carrying the same
environment map (one the permutation of the other) but different iteration
orders receive different hashes from `add_entry`, so the hash is not
computed from a canonicalized (sorted) view and is not independent of map
iteration order. -/
theorem add_entry_not_canonicalized :
    cfgEnvBA.environment.Perm cfgEnvAB.environment ∧
    cfgEnvBA.name = cfgEnvAB.name ∧
    cfgEnvBA.packages = cfgEnvAB.packages ∧
    cfgEnvBA.created_at = cfgEnvAB.created_at ∧
    cfgEnvBA.shell = cfgEnvAB.shell ∧
    (add_entry [] cfgEnvBA .Create "m" "t").2 ≠ (add_entry [] cfgEnvAB .Create "m" "t").2 := by
  refine ⟨List.Perm.swap _ _ _, rfl, rfl, rfl, rfl, ?_⟩
  decide

theorem contains_iff {α} [BEq α] [LawfulBEq α] {l : List α} {a : α} :
    l.contains a = true ↔ a ∈ l :=
  List.elem_iff

/-- Every link surviving `cmd_clean` whose target is a direct store child
resolves to a store directory that also survives. -/
theorem cmd_clean_links_resolve (s : WState) :
    ∀ l ∈ (cmd_clean s).links, ∀ n, l.target = Target.storeChild n →
      n ∈ storeNames (cmd_clean s) := by
  intro l hl n ht
  simp only [cmd_clean, List.mem_filter] at hl
  obtain ⟨hmem, hex⟩ := hl
  rw [ht] at hex
  have hn : n ∈ storeNames s := by
    simpa only [targetExists, contains_iff] using hex
  simp only [storeNames, List.mem_map] at hn
  obtain ⟨d, hd, hdn⟩ := hn
  simp only [cmd_clean, storeNames, List.mem_map]
  refine ⟨d, ?_, hdn⟩
  rw [List.mem_filter]
  refine ⟨hd, ?_⟩
  rw [contains_iff, hdn]
  rw [List.mem_map]
  refine ⟨l, ?_, by rw [ht]; rfl⟩
  rw [List.mem_filter]
  exact ⟨hmem, by rw [ht]; exact hex⟩

/-- Every store directory surviving `cmd_clean` has its basename
referenced by a surviving link's raw target. -/
theorem cmd_clean_store_referenced (s : WState) :
    ∀ d ∈ (cmd_clean s).store, ∃ l ∈ (cmd_clean s).links, targetBasename l.target = d.name := by
  intro d hd
  simp only [cmd_clean, List.mem_filter] at hd
  obtain ⟨_, href⟩ := hd
  rw [contains_iff, List.mem_map] at href
  obtain ⟨l, hl, hln⟩ := href
  exact ⟨l, by simpa only [cmd_clean] using hl, hln⟩

/-- C1 (amended). After `cmd_clean` — dangling-link sweep, then
orphan-snapshot sweep — every alias whose symlink target is a direct child
of `store/` resolves to an existing snapshot directory, and every
directory under `store/` has its basename referenced by at least one
alias's symlink target.  (Aliases whose targets point outside `store/`
may survive the dangling-link sweep whenever those paths exist, so they
need not resolve to snapshots; see the counterexample.) -/
theorem clean_referential_integrity (s : WState) :
    (∀ l ∈ (cmd_clean s).links, (∃ n, l.target = Target.storeChild n) →
      ∃ d ∈ (cmd_clean s).store, l.target = Target.storeChild d.name) ∧
    (∀ d ∈ (cmd_clean s).store, ∃ l ∈ (cmd_clean s).links,
      targetBasename l.target = d.name) := by
  constructor
  · intro l hl hsc
    obtain ⟨n, hn⟩ := hsc
    have := cmd_clean_links_resolve s l hl n hn
    simp only [storeNames, List.mem_map] at this
    obtain ⟨d, hd, hdn⟩ := this
    exact ⟨d, hd, by rw [hn, hdn]⟩
  · exact cmd_clean_store_referenced s

/-- Witness: `clean_referential_integrity` at a workspace with a live
stable alias and an orphaned store entry. -/
theorem clean_referential_integrity_witness :
    (∀ l ∈ (cmd_clean exStaleStore).links, (∃ n, l.target = Target.storeChild n) →
      ∃ d ∈ (cmd_clean exStaleStore).store, l.target = Target.storeChild d.name) ∧
    (∀ d ∈ (cmd_clean exStaleStore).store, ∃ l ∈ (cmd_clean exStaleStore).links,
      targetBasename l.target = d.name) :=
  clean_referential_integrity exStaleStore

/-- Counterexample to C1 as stated: a workspace whose only alias points at
an existing directory outside `store/` survives garbage collection
unchanged, yet that alias does not resolve to a snapshot directory, so
full referential integrity fails. -/
theorem clean_not_full_integrity :
    refIntegrity (cmd_clean exOutsideAlias) = false ∧
    (cmd_clean exOutsideAlias).links = exOutsideAlias.links := by
  constructor
  · decide
  · decide

/-- C3. Promotion correctness (src/bin/sfc.rs `cmd_promote`): when the
chosen temp alias (explicit, or the most recently modified one) exists and
promotion succeeds, the stable alias's target equals the target the temp
alias had immediately before the promotion, and the temp alias itself is
still present afterwards. -/
theorem promote_correct (s : WState) (name : String) (ta : Option String) (now : Nat)
    (chosen : String) (s2 : WState)
    (hres : resolveChosenTemp s name ta = some chosen)
    (hok : cmd_promote s name ta now = .ok s2) :
    (lookupLink s2 (name ++ "-stable")).map (fun l => l.target) =
      (lookupLink s chosen).map (fun l => l.target) ∧
    chosen ∈ linkNames s2 := by
  unfold cmd_promote at hok
  rw [hres] at hok
  simp only [] at hok
  cases hl : lookupLink s chosen with
  | none =>
    rw [hl] at hok
    exact absurd hok (by simp)
  | some l =>
    rw [hl] at hok
    simp only [] at hok
    by_cases hex : targetExists s l.target = true
    · rw [if_pos hex] at hok
      have hs2 : s2 = setLink s (name ++ "-stable") l.target now := by
        cases hok
        rfl
      subst hs2
      have hlname : l.name = chosen := by
        have := List.find?_some hl
        simpa using this
      constructor
      · have hfind : lookupLink (setLink s (name ++ "-stable") l.target now)
            (name ++ "-stable") = some ⟨name ++ "-stable", l.target, now⟩ := by
          simp only [lookupLink, setLink, List.find?_append]
          have hnone : (s.links.filter (fun x => x.name ≠ name ++ "-stable")).find?
              (fun x => x.name = name ++ "-stable") = none := by
            rw [List.find?_eq_none]
            intro x hx
            rw [List.mem_filter] at hx
            simpa using hx.2
          rw [hnone]
          simp
        simp [hfind, hl]
      · simp only [linkNames, setLink, List.map_append, List.mem_append]
        by_cases heq : chosen = name ++ "-stable"
        · right
          simp [heq]
        · left
          rw [List.mem_map]
          refine ⟨l, ?_, hlname⟩
          rw [List.mem_filter]
          refine ⟨List.mem_of_find?_eq_some hl, ?_⟩
          rw [hlname]
          simpa using heq
    · rw [if_neg hex] at hok
      exact absurd hok (by simp)

/-- Witness: promoting the temp alias of `exPromote` repoints
`demo-stable` to snapshot `B` and keeps the temp alias. -/
theorem promote_correct_witness :
    (lookupLink exPromoted "demo-stable").map (fun l => l.target) =
      (lookupLink exPromote "demo-temp-20240101").map (fun l => l.target) ∧
    "demo-temp-20240101" ∈ linkNames exPromoted :=
  promote_correct exPromote "demo" (some "demo-temp-20240101") 9
    "demo-temp-20240101" exPromoted (by decide) (by rfl)

/-- `targetExists` is monotone in the store and fixed by the rest of the
state. -/
theorem targetExists_mono {s1 s2 : WState}
    (hs : ∀ n, n ∈ storeNames s1 → n ∈ storeNames s2)
    (ho : s1.outsideDirs = s2.outsideDirs) {t : Target}
    (h : targetExists s1 t = true) : targetExists s2 t = true := by
  cases t with
  | storeChild n =>
    simp only [targetExists, contains_iff] at h ⊢
    exact hs n h
  | outside p =>
    simpa only [targetExists, ho] using h

/-- C4. Discard correctness (src/bin/sfc.rs `cmd_discard` with
src/sfc.rs `try_remove_store_if_orphan`): discarding an existing temp
alias that points at a snapshot removes the alias, and the snapshot
directory survives in `store/` if and only if some remaining alias
resolves to a target with that snapshot's basename — reference counting by
scanning aliases. -/
theorem discard_correct (s : WState) (name : String) (ta : Option String)
    (chosen : String) (l : LinkEntry) (b : String) (s2 : WState)
    (hres : resolveChosenTemp s name ta = some chosen)
    (hl : lookupLink s chosen = some l)
    (ht : l.target = Target.storeChild b)
    (hex : targetExists s l.target = true)
    (hok : cmd_discard s name ta = .ok s2) :
    chosen ∉ linkNames s2 ∧
    (b ∈ storeNames s2 ↔
      ∃ x ∈ s2.links, targetExists s2 x.target = true ∧ targetBasename x.target = b) := by
  unfold cmd_discard at hok
  rw [hres] at hok
  simp only [] at hok
  rw [hl] at hok
  simp only [] at hok
  rw [if_pos hex, ht] at hok
  simp only [try_remove_store_if_orphan] at hok
  have hb : b ∈ storeNames s := by
    rw [ht] at hex
    simpa only [targetExists, contains_iff] using hex
  split at hok
  · rename_i hany
    injection hok with hok2
    subst hok2
    constructor
    · intro hmem
      simp only [linkNames, List.mem_map] at hmem
      obtain ⟨x, hx, hxn⟩ := hmem
      rw [List.mem_filter] at hx
      rw [hxn] at hx
      simpa using hx.2
    · constructor
      · intro _
        rw [List.any_eq_true] at hany
        obtain ⟨x, hx, hpx⟩ := hany
        rw [Bool.and_eq_true] at hpx
        exact ⟨x, hx, hpx.1, by simpa using hpx.2⟩
      · intro _
        simpa only [storeNames] using hb
  · rename_i hany
    injection hok with hok2
    subst hok2
    rw [Bool.not_eq_true, List.any_eq_false] at hany
    constructor
    · intro hmem
      simp only [linkNames, List.mem_map] at hmem
      obtain ⟨x, hx, hxn⟩ := hmem
      rw [List.mem_filter] at hx
      rw [hxn] at hx
      simpa using hx.2
    · constructor
      · intro hmem
        simp only [storeNames, List.mem_map] at hmem
        obtain ⟨d, hd, hdn⟩ := hmem
        rw [List.mem_filter] at hd
        rw [hdn] at hd
        have hne : b ≠ b := by simpa using hd.2
        exact absurd rfl hne
      · intro hwit
        obtain ⟨x, hx, hxex, hxb⟩ := hwit
        exfalso
        have hx1 : targetExists
            { s with links := s.links.filter (fun x => x.name ≠ chosen) } x.target = true := by
          refine targetExists_mono ?_ ?_ hxex
          · intro n hn
            simp only [storeNames, List.mem_map] at hn ⊢
            obtain ⟨d, hd, hdn⟩ := hn
            exact ⟨d, (List.mem_filter.mp hd).1, hdn⟩
          · rfl
        have := hany x hx
        rw [Bool.and_eq_true] at this
        exact this ⟨hx1, by simpa using hxb⟩

/-- Witness: discarding the only alias on snapshot `B` removes both the
alias and the snapshot. -/
theorem discard_correct_witness :
    "demo-temp-20240101" ∉ linkNames exDiscarded ∧
    ("B" ∈ storeNames exDiscarded ↔
      ∃ x ∈ exDiscarded.links, targetExists exDiscarded x.target = true ∧
        targetBasename x.target = "B") :=
  discard_correct exPromote "demo" (some "demo-temp-20240101") "demo-temp-20240101"
    ⟨"demo-temp-20240101", Target.storeChild "B", 6⟩ "B" exDiscarded
    (by decide) (by decide) (by decide) (by decide) (by rfl)

theorem mem_list_containers {s : WState} {n : String} :
    n ∈ list_containers s ↔ n ∈ s.containers := by
  unfold list_containers
  exact (List.mergeSort_perm _ _).mem_iff

theorem cmd_delete_eq (s : WState) (names : List String) (force confirm : Bool) :
    cmd_delete s names force confirm =
      cmd_clean (names.foldl
        (deleteOne (list_containers s) (current_container s) force confirm) s) := rfl

/-- C7 (amended). `cmd_delete` (src/bin/sfc.rs): deleting the current
container is refused unless forced — the loop leaves the state untouched
and only the final garbage collection runs; a forced delete of the current
container succeeds but writes the empty string to `.sfc/current` instead
of removing the file, so `current_container` afterwards returns
`some ""` rather than `none`; and garbage collection runs at the end of
every delete, so afterwards every store directory is referenced by some
alias. -/
theorem delete_current_behavior (s : WState) (name : String) (confirm : Bool) :
    (current_container s = some name →
      cmd_delete s [name] false confirm = cmd_clean s) ∧
    (name ∈ s.containers → current_container s = some name →
      (cmd_delete s [name] true confirm).current = some "") ∧
    (∀ (names : List String) (force c2 : Bool),
      ∀ d ∈ (cmd_delete s names force c2).store,
        ∃ l ∈ (cmd_delete s names force c2).links, targetBasename l.target = d.name) := by
  refine ⟨?_, ?_, ?_⟩
  · intro hcur
    rw [cmd_delete_eq]
    congr 1
    show deleteOne (list_containers s) (current_container s) false confirm s name = s
    unfold deleteOne
    by_cases hc : (list_containers s).contains name = true
    · rw [if_neg (not_not_intro hc)]
      rw [if_pos ⟨hcur, by simp⟩]
    · rw [if_pos hc]
  · intro hmem hcur
    rw [cmd_delete_eq]
    show (cmd_clean (deleteOne (list_containers s) (current_container s) true confirm s name)).current = some ""
    have hclean : ∀ x : WState, (cmd_clean x).current = x.current := fun _ => rfl
    rw [hclean]
    unfold deleteOne
    have hc : (list_containers s).contains name = true := by
      rw [contains_iff]
      exact mem_list_containers.mpr hmem
    rw [if_neg (not_not_intro hc)]
    rw [if_neg (by simp)]
    rw [if_neg (by simp)]
    rw [if_pos hcur]
  · intro names force c2 d hd
    rw [cmd_delete_eq] at hd ⊢
    exact cmd_clean_store_referenced _ d hd

/-- Witness: `delete_current_behavior` at `exCurrent`: the unforced delete
of the current container only garbage-collects, and the forced delete
leaves the pointer file holding the empty string. -/
theorem delete_current_behavior_witness :
    cmd_delete exCurrent ["demo"] false true = cmd_clean exCurrent ∧
    (cmd_delete exCurrent ["demo"] true true).current = some "" :=
  ⟨(delete_current_behavior exCurrent "demo" true).1 (by decide),
   (delete_current_behavior exCurrent "demo" true).2.1 (by decide) (by decide)⟩

/-- Counterexample to C7 as stated: after a forced delete of the current
container `demo` — which does remove the container — the current-container
pointer reads back as `some ""`, not `none`. -/
theorem delete_current_not_cleared :
    current_container (cmd_delete exCurrent ["demo"] true true) = some "" ∧
    current_container (cmd_delete exCurrent ["demo"] true true) ≠ none ∧
    "demo" ∉ (cmd_delete exCurrent ["demo"] true true).containers := by
  have h1 : list_containers exCurrent = ["demo"] := by
    simp [list_containers, exCurrent]
  rw [cmd_delete_eq, h1]
  decide

theorem optTimeLe_refl (a : Option Nat) : optTimeLe a a = true := by
  cases a with
  | none => rfl
  | some x => simp [optTimeLe]

theorem optTimeLe_trans {a b c : Option Nat} (h1 : optTimeLe a b = true)
    (h2 : optTimeLe b c = true) : optTimeLe a c = true := by
  cases a with
  | none => rfl
  | some x =>
    cases b with
    | none => exact absurd h1 (by simp [optTimeLe])
    | some y =>
      cases c with
      | none => exact absurd h2 (by simp [optTimeLe])
      | some z =>
        simp only [optTimeLe, decide_eq_true_eq] at h1 h2 ⊢
        omega

theorem optTimeLe_total (a b : Option Nat) : (optTimeLe a b || optTimeLe b a) = true := by
  cases a with
  | none => rfl
  | some x =>
    cases b with
    | none => rfl
    | some y =>
      simp only [optTimeLe, Bool.or_eq_true, decide_eq_true_eq]
      omega

theorem tempAliasLe_trans (s : WState) :
    ∀ a b c, tempAliasLe s a b → tempAliasLe s b c → tempAliasLe s a c := by
  intro a b c h1 h2
  exact optTimeLe_trans h2 h1

theorem tempAliasLe_total (s : WState) :
    ∀ a b, (tempAliasLe s a b || tempAliasLe s b a) = true := by
  intro a b
  exact optTimeLe_total _ _

/-- C9 (amended). `find_latest_temp_alias` (src/sfc.rs): among the links
named `<name>-temp-…` (assumed pairwise distinct, as directory entries
are), the resolver returns `none` exactly when there are none; otherwise
it returns the name of a temp alias whose key — the modification time of
the link's **target** (`fs::metadata` follows the symlink; missing targets
count as `none`, the least key) — is maximal, and every alias iterated
before it has a strictly smaller key, so ties break in favor of directory
iteration order.  The backing symlink file's own mtime plays no role; see
the counterexample. -/
theorem find_latest_temp_alias_spec (s : WState) (name : String)
    (hnd : (tempAliasesOf s name).Nodup) :
    (find_latest_temp_alias s name = none ↔ tempAliasesOf s name = []) ∧
    (∀ a, find_latest_temp_alias s name = some a →
      ∃ l₁ l l₂, tempAliasesOf s name = l₁ ++ l :: l₂ ∧ l.name = a ∧
        (∀ x ∈ tempAliasesOf s name,
          optTimeLe (resolvedMtime s x.target) (resolvedMtime s l.target) = true) ∧
        (∀ x ∈ l₁,
          optTimeLe (resolvedMtime s l.target) (resolvedMtime s x.target) = false)) := by
  constructor
  · unfold find_latest_temp_alias
    rw [Option.map_eq_none']
    rw [List.head?_eq_none_iff]
    constructor
    · intro h
      have := congrArg List.length h
      rw [List.length_mergeSort] at this
      exact List.length_eq_zero.mp this
    · intro h
      rw [h, List.mergeSort_nil]
  · intro a ha
    unfold find_latest_temp_alias at ha
    cases hms : (tempAliasesOf s name).mergeSort (tempAliasLe s) with
    | nil =>
      rw [hms] at ha
      exact absurd ha (by simp)
    | cons m rest =>
      rw [hms] at ha
      simp only [List.head?_cons, Option.map_some', Option.some.injEq] at ha
      have hmem : m ∈ tempAliasesOf s name := by
        have h0 : m ∈ (tempAliasesOf s name).mergeSort (tempAliasLe s) := by
          rw [hms]
          exact List.mem_cons_self m rest
        exact List.mem_mergeSort.mp h0
      obtain ⟨l₁, l₂, hdecomp⟩ := List.append_of_mem hmem
      have hndms : (m :: rest).Nodup := by
        rw [← hms]
        exact ((List.mergeSort_perm _ _).nodup_iff).mpr hnd
      have hnotl1 : m ∉ l₁ := by
        intro hm
        rw [hdecomp] at hnd
        rw [List.nodup_append] at hnd
        exact hnd.2.2 hm (List.mem_cons_self m l₂)
      have hsorted : (m :: rest).Pairwise (fun a b => tempAliasLe s a b) := by
        rw [← hms]
        exact List.sorted_mergeSort (tempAliasLe_trans s) (tempAliasLe_total s) _
      have hmax : ∀ x ∈ tempAliasesOf s name,
          optTimeLe (resolvedMtime s x.target) (resolvedMtime s m.target) = true := by
        intro x hx
        have hx2 : x ∈ m :: rest := by
          rw [← hms]
          exact List.mem_mergeSort.mpr hx
        rcases List.mem_cons.mp hx2 with rfl | hx3
        · exact optTimeLe_refl _
        · exact (List.pairwise_cons.mp hsorted).1 x hx3
      refine ⟨l₁, m, l₂, hdecomp, ha, hmax, ?_⟩
      intro x hx
      by_contra hcon
      rw [Bool.not_eq_false] at hcon
      have hxm : tempAliasLe s x m = true := hcon
      have hsub : List.Sublist [x, m] (tempAliasesOf s name) := by
        rw [hdecomp]
        obtain ⟨p, q, hpq⟩ := List.append_of_mem hx
        rw [hpq, List.append_assoc, List.cons_append]
        refine List.sublist_append_of_sublist_right ?_
        refine List.Sublist.cons₂ x ?_
        refine List.sublist_append_of_sublist_right ?_
        exact List.Sublist.cons₂ m (List.nil_sublist l₂)
      have hpair := List.pair_sublist_mergeSort (tempAliasLe_trans s)
        (tempAliasLe_total s) hxm hsub
      rw [hms] at hpair
      cases hpair with
      | cons a h =>
        have hmrest : m ∈ rest := (List.Sublist.subset h) (by simp)
        exact (List.nodup_cons.mp hndms).1 hmrest
      | cons₂ a h =>
        exact hnotl1 hx

/-- Helper: evaluating `find_latest_temp_alias` on the two-alias state:
the alias with the newer target (not the newer link file) wins. -/
theorem find_latest_exTemps : find_latest_temp_alias exTemps "n" = some "n-temp-a" := by
  have htemps : tempAliasesOf exTemps "n" =
      [⟨"n-temp-a", Target.storeChild "A", 1⟩, ⟨"n-temp-b", Target.storeChild "B", 2⟩] := by
    rfl
  unfold find_latest_temp_alias
  rw [htemps]
  rw [List.mergeSort_of_sorted (by decide)]
  rfl

/-- Counterexample to C9 as stated: the resolver returns `n-temp-a`, whose
backing symlink file has mtime 1, although the temp alias `n-temp-b` has a
backing symlink file with the later mtime 2 — the code keys on the
target's mtime (10 versus 5), not the link file's. -/
theorem find_latest_not_link_mtime :
    find_latest_temp_alias exTemps "n" = some "n-temp-a" ∧
    (lookupLink exTemps "n-temp-a").map (fun l => l.mtime) = some 1 ∧
    (lookupLink exTemps "n-temp-b").map (fun l => l.mtime) = some 2 ∧
    strStartsWith "n-temp-b" ("n" ++ "-temp-") = true :=
  ⟨find_latest_exTemps, by decide, by decide, by decide⟩

/-- Witness: `find_latest_temp_alias_spec` at the two-alias state. -/
theorem find_latest_temp_alias_spec_witness :
    (find_latest_temp_alias exTemps "n" = none ↔ tempAliasesOf exTemps "n" = []) ∧
    (∀ a, find_latest_temp_alias exTemps "n" = some a →
      ∃ l₁ l l₂, tempAliasesOf exTemps "n" = l₁ ++ l :: l₂ ∧ l.name = a ∧
        (∀ x ∈ tempAliasesOf exTemps "n",
          optTimeLe (resolvedMtime exTemps x.target) (resolvedMtime exTemps l.target) = true) ∧
        (∀ x ∈ l₁,
          optTimeLe (resolvedMtime exTemps l.target) (resolvedMtime exTemps x.target) = false)) :=
  find_latest_temp_alias_spec exTemps "n" (by decide)

end Sfc
